import Mathlib

/-!
A shallow embedding of the git synchronization driver (src/vcs/git.go).
Subprocess execution is modelled by explicit environments: each external
invocation's observable outcome (captured combined output, failure) is a
parameter, and every operation additionally returns the list of events
(subprocess invocations with their working directory, program and arguments,
and log lines) that it performs, in order.
-/

namespace Hound

/-- Outcome of one external command invocation: the captured combined output
and the process-level failure, if any (the error value of CombinedOutput or
of the Start/Wait sequence). -/
structure CmdResult where
  out : String
  err : Option String

/-- Observable events: subprocess invocations (working directory, program,
arguments) and log lines. -/
inductive Ev where
  | exec : String → String → List String → Ev
  | log : String → Ev

/-- Constant defaultRef = "master" from git.go. -/
def defaultRef : String := "master"

/-- Model of func run(desc, dir, cmd string, args ...string) (string, error):
invokes the command, logs a warning on failure, and always returns the
captured output together with a nil error. -/
def run (desc dir cmd : String) (args : List String) (res : CmdResult) :
    (String × Option String) × List Ev :=
  ((res.out, none),
    Ev.exec dir cmd args ::
      match res.err with
      | some _ => [Ev.log ("Failed to " ++ desc ++ " " ++ dir ++ ", see output below\n" ++ res.out ++ "Continuing...")]
      | none => [])

/-- The literal "HEAD branch: " of headBranchRegexp. -/
def hbLit : List Char := ['H', 'E', 'A', 'D', ' ', 'b', 'r', 'a', 'n', 'c', 'h', ':', ' ']

/-- stripPre p l returns some t exactly when l = p ++ t. -/
def stripPre : List Char → List Char → Option (List Char)
  | [], l => some l
  | _ :: _, [] => none
  | p :: ps, c :: cs => if c == p then stripPre ps cs else none

/-- A match of headBranchRegexp anchored at the head of the list: the literal
followed by a greedy nonempty capture of non-newline characters. -/
def findHeadBranchAt (l : List Char) : Option (List Char) :=
  (stripPre hbLit l).bind fun t =>
    if t.takeWhile (fun ch => ch != '\n') = [] then none
    else some (t.takeWhile (fun ch => ch != '\n'))

/-- Leftmost match of headBranchRegexp: the capture that FindStringSubmatch
yields on the given text, if any. -/
def findHeadBranch : List Char → Option (List Char)
  | [] => none
  | c :: cs =>
    match findHeadBranchAt (c :: cs) with
    | some cap => some cap
    | none => findHeadBranch cs

/-- The literal " linguist-generated=true" of autoGeneratedFileRegexp. -/
def genMarker : List Char := [' ', 'l', 'i', 'n', 'g', 'u', 'i', 's', 't', '-', 'g', 'e', 'n', 'e', 'r', 'a', 't', 'e', 'd', '=', 't', 'r', 'u', 'e']

/-- genValidAt s k: s.take k is a legal capture of length k anchored at the
head of s: the marker literal matches at position k and the capture contains
no newline (the dot of the pattern does not match newlines). -/
def genValidAt (s : List Char) (k : Nat) : Bool :=
  genMarker.isPrefixOf (s.drop k) && !((s.take k).contains '\n')

/-- Greedy search for the largest legal capture length between 1 and n. -/
def greedyCapAux (s : List Char) : Nat → Option Nat
  | 0 => none
  | k + 1 => if genValidAt s (k + 1) then some (k + 1) else greedyCapAux s k

/-- A greedy match of autoGeneratedFileRegexp anchored at the head of the
list. -/
def findGenAt (l : List Char) : Option (List Char) :=
  (greedyCapAux l l.length).map fun k => l.take k

/-- Leftmost-greedy match of autoGeneratedFileRegexp: the capture that
FindStringSubmatch yields on the given text, if any. -/
def findGenMatch : List Char → Option (List Char)
  | [] => none
  | c :: cs =>
    match findGenAt (c :: cs) with
    | some cap => some cap
    | none => findGenMatch cs

/-- Model of strings.ReplaceAll (leftmost, non-overlapping), fuelled by the
input length; used only with nonempty patterns. -/
def replaceAllAux (pat rep : List Char) : Nat → List Char → List Char
  | 0, s => s
  | _ + 1, [] => []
  | fuel + 1, c :: cs =>
    if pat.isPrefixOf (c :: cs) && !pat.isEmpty then
      rep ++ replaceAllAux pat rep fuel (cs.drop (pat.length - 1))
    else
      c :: replaceAllAux pat rep fuel cs

def replaceAll (pat rep s : List Char) : List Char :=
  replaceAllAux pat rep s.length s

/-- The two substitutions AutoGeneratedFilePatterns applies to a captured
path: every "**" becomes "*", then every remaining "*" becomes ".*". -/
def convertPattern (m : String) : String :=
  String.mk (replaceAll ['*'] ['.', '*'] (replaceAll ['*', '*'] ['*'] m.data))

/-- ASCII fragment of Go's unicode.IsSpace, covering subprocess output. -/
def isGoSpace (c : Char) : Bool :=
  c == ' ' || c == '\t' || c == '\n' || c == Char.ofNat 11 || c == Char.ofNat 12 || c == '\r'

/-- Model of strings.TrimSpace. -/
def trimSpace (s : String) : String :=
  String.mk (((s.data.dropWhile isGoSpace).reverse.dropWhile isGoSpace).reverse)

/-- The configuration fields of GitDriver (json detect-ref and ref). -/
structure GitDriver where
  DetectRef : Bool
  Ref : String

/-- Model of headBranchDetector.detectRef: run git remote show origin through
the soft-failure runner, then extract the head branch via headBranchRegexp;
yields the empty string when no line matches. -/
def detectRef (dir : String) (remoteShow : CmdResult) : String × List Ev :=
  let o := run "git show remote info" dir "git" ["remote", "show", "origin"] remoteShow
  match o.1.2 with
  | some _ => ("", o.2 ++ [Ev.log ("error occured when fetching info to determine target ref in " ++ dir ++ ". Will fall back to default ref " ++ defaultRef)])
  | none =>
    match findHeadBranch o.1.1.data with
    | none => ("", o.2 ++ [Ev.log ("could not determine target ref in " ++ dir ++ ". Will fall back to default ref " ++ defaultRef)])
    | some branch => (String.mk branch, o.2)

/-- Model of GitDriver.targetRef: the explicit ref when nonempty, else the
detector's result when DetectRef is set, else empty; a final empty result
falls back to defaultRef. -/
def targetRef (g : GitDriver) (dir : String) (remoteShow : CmdResult) : String × List Ev :=
  let t : String × List Ev :=
    if g.Ref ≠ "" then (g.Ref, [])
    else if g.DetectRef then detectRef dir remoteShow
    else ("", [])
  (if t.1 = "" then defaultRef else t.1, t.2)

/-- Failure points of the HeadRev invocation: creating the stdout pipe,
starting the process, copying its output, and waiting on it. -/
structure HeadRevEnv where
  pipeErr : Option String
  startErr : Option String
  copyErr : Option String
  out : String
  waitErr : Option String

/-- Model of GitDriver.HeadRev: git rev-parse HEAD with hard failures at the
pipe, start, copy and wait steps; at the end the source returns the trimmed
captured output paired with the Wait outcome. -/
def HeadRev (dir : String) (env : HeadRevEnv) : (String × Option String) × List Ev :=
  match env.pipeErr with
  | some e => (("", some e), [])
  | none =>
    match env.startErr with
    | some e => (("", some e), [])
    | none =>
      match env.copyErr with
      | some e => (("", some e), [Ev.exec dir "git" ["rev-parse", "HEAD"]])
      | none => ((trimSpace env.out, env.waitErr), [Ev.exec dir "git" ["rev-parse", "HEAD"]])

/-- The subprocess outcomes a Pull may consume: the detector's remote-show
invocation, the fetch, the reset, and the HeadRev invocation. -/
structure PullEnv where
  remoteShow : CmdResult
  fetchRes : CmdResult
  resetRes : CmdResult
  headRev : HeadRevEnv

/-- Model of GitDriver.Pull: resolve the target ref, fetch and hard-reset
through the soft-failure runner, then return HeadRev's result. -/
def Pull (g : GitDriver) (dir : String) (env : PullEnv) : (String × Option String) × List Ev :=
  let tr := targetRef g dir env.remoteShow
  let f := run "git fetch" dir "git" ["fetch", "--prune", "--no-tags", "--depth", "1", "origin", "+" ++ tr.1 ++ ":remotes/origin/" ++ tr.1] env.fetchRes
  match f.1.2 with
  | some e => (("", some e), tr.2 ++ f.2)
  | none =>
    let r := run "git reset" dir "git" ["reset", "--hard", "origin/" ++ tr.1] env.resetRes
    match r.1.2 with
    | some e => (("", some e), tr.2 ++ f.2 ++ r.2)
    | none =>
      let h := HeadRev dir env.headRev
      (h.1, tr.2 ++ f.2 ++ r.2 ++ h.2)

/-- splitAfterLastSlash l splits l just after its last slash (the behaviour
of filepath.Split on a slash-separated path). -/
def splitAfterLastSlash : List Char → List Char × List Char
  | [] => ([], [])
  | c :: cs =>
    if cs.contains '/' then
      ((splitAfterLastSlash cs).1.cons c, (splitAfterLastSlash cs).2)
    else if c = '/' then ([c], cs)
    else ([], c :: cs)

/-- Model of filepath.Split. -/
def filepathSplit (dir : String) : String × String :=
  (String.mk (splitAfterLastSlash dir.data).1, String.mk (splitAfterLastSlash dir.data).2)

/-- The clone invocation's outcome plus everything a subsequent Pull may
consume. -/
structure CloneEnv where
  cloneRes : CmdResult
  pull : PullEnv

/-- Model of GitDriver.Clone: shallow clone of url into the leaf of dir under
its parent; a clone failure is logged and returned at once, otherwise the
result is that of Pull. -/
def Clone (g : GitDriver) (dir url : String) (env : CloneEnv) : (String × Option String) × List Ev :=
  let par := (filepathSplit dir).1
  let rep := (filepathSplit dir).2
  match env.cloneRes.err with
  | some e =>
    (("", some e),
      [Ev.exec par "git" ["clone", "--depth", "1", url, rep],
       Ev.log ("Failed to clone " ++ url ++ ", see output below\n" ++ env.cloneRes.out ++ "Continuing...")])
  | none =>
    let p := Pull g dir env.pull
    (p.1, Ev.exec par "git" ["clone", "--depth", "1", url, rep] :: p.2)

/-- Model of GitDriver.AutoGeneratedFilePatterns: the attributes file is
either unopenable (none) or a list of scanner lines; each line matching
autoGeneratedFileRegexp contributes its converted capture, in file order. -/
def AutoGeneratedFilePatterns (dir : String) (file : Option (List String)) : List String :=
  match file with
  | none => []
  | some lines =>
    lines.filterMap fun line =>
      match findGenMatch line.data with
      | some m => some (convertPattern (String.mk m))
      | none => none

/-- JSON values, for the model of encoding/json.Unmarshal used by newGit. -/
inductive JVal where
  | jnull : JVal
  | jbool : Bool → JVal
  | jnum : JVal
  | jstr : String → JVal
  | jarr : List JVal → JVal
  | jobj : List (String × JVal) → JVal

/-- Skip JSON insignificant whitespace. -/
def skipWs : List Char → List Char
  | [] => []
  | c :: cs => if c == ' ' || c == '\t' || c == '\n' || c == '\r' then skipWs cs else c :: cs

/-- Hex digit value, for unicode escapes in JSON strings. -/
def hexVal (c : Char) : Option Nat :=
  if '0' ≤ c ∧ c ≤ '9' then some (c.toNat - '0'.toNat)
  else if 'a' ≤ c ∧ c ≤ 'f' then some (c.toNat - 'a'.toNat + 10)
  else if 'A' ≤ c ∧ c ≤ 'F' then some (c.toNat - 'A'.toNat + 10)
  else none

/-- Parse the body of a JSON string literal (the opening quote already
consumed), returning the decoded characters and the rest of the input. -/
def parseStrAux : Nat → List Char → Option (List Char × List Char)
  | 0, _ => none
  | _ + 1, [] => none
  | fuel + 1, c :: cs =>
    if c == '"' then some ([], cs)
    else if c.toNat < 32 then none
    else if c == '\\' then
      match cs with
      | [] => none
      | e :: cs2 =>
        let esc : Option (Char × List Char) :=
          if e == '"' then some ('"', cs2)
          else if e == '\\' then some ('\\', cs2)
          else if e == '/' then some ('/', cs2)
          else if e == 'n' then some ('\n', cs2)
          else if e == 't' then some ('\t', cs2)
          else if e == 'r' then some ('\r', cs2)
          else if e == 'b' then some (Char.ofNat 8, cs2)
          else if e == 'f' then some (Char.ofNat 12, cs2)
          else if e == 'u' then
            match cs2 with
            | h1 :: h2 :: h3 :: h4 :: cs3 =>
              match hexVal h1, hexVal h2, hexVal h3, hexVal h4 with
              | some a, some b, some c2, some d => some (Char.ofNat (((a * 16 + b) * 16 + c2) * 16 + d), cs3)
              | _, _, _, _ => none
            | _ => none
          else none
        match esc with
        | some er => (parseStrAux fuel er.2).map fun p => (er.1 :: p.1, p.2)
        | none => none
    else (parseStrAux fuel cs).map fun p => (c :: p.1, p.2)

/-- Characters that may continue a JSON number token. -/
def isNumCont (c : Char) : Bool :=
  c.isDigit || c == '.' || c == 'e' || c == 'E' || c == '+' || c == '-'

mutual

/-- Parse one JSON value from the input (fuelled). -/
def parseJVal : Nat → List Char → Option (JVal × List Char)
  | 0, _ => none
  | f + 1, s =>
    match skipWs s with
    | [] => none
    | c :: cs =>
      if c == '{' then
        match skipWs cs with
        | '}' :: r => some (JVal.jobj [], r)
        | s2 =>
          match parseObjLoop f s2 with
          | some p => some (JVal.jobj p.1, p.2)
          | none => none
      else if c == '[' then
        match skipWs cs with
        | ']' :: r => some (JVal.jarr [], r)
        | s2 =>
          match parseArrLoop f s2 with
          | some p => some (JVal.jarr p.1, p.2)
          | none => none
      else if c == '"' then
        match parseStrAux (cs.length + 1) cs with
        | some p => some (JVal.jstr (String.mk p.1), p.2)
        | none => none
      else if c == 'n' then
        if List.isPrefixOf ['u', 'l', 'l'] cs then some (JVal.jnull, cs.drop 3) else none
      else if c == 't' then
        if List.isPrefixOf ['r', 'u', 'e'] cs then some (JVal.jbool true, cs.drop 3) else none
      else if c == 'f' then
        if List.isPrefixOf ['a', 'l', 's', 'e'] cs then some (JVal.jbool false, cs.drop 4) else none
      else if c == '-' || c.isDigit then
        some (JVal.jnum, cs.dropWhile isNumCont)
      else none

/-- Parse the elements of a nonempty JSON array (fuelled). -/
def parseArrLoop : Nat → List Char → Option (List JVal × List Char)
  | 0, _ => none
  | f + 1, s =>
    match parseJVal f s with
    | none => none
    | some vp =>
      match skipWs vp.2 with
      | ',' :: r2 =>
        match parseArrLoop f r2 with
        | some p => some (vp.1 :: p.1, p.2)
        | none => none
      | ']' :: r2 => some ([vp.1], r2)
      | _ => none

/-- Parse the members of a nonempty JSON object (fuelled). -/
def parseObjLoop : Nat → List Char → Option (List (String × JVal) × List Char)
  | 0, _ => none
  | f + 1, s =>
    match skipWs s with
    | '"' :: cs =>
      match parseStrAux (cs.length + 1) cs with
      | none => none
      | some kp =>
        match skipWs kp.2 with
        | ':' :: r2 =>
          match parseJVal f r2 with
          | none => none
          | some vp =>
            match skipWs vp.2 with
            | ',' :: r4 =>
              match parseObjLoop f r4 with
              | some p => some ((String.mk kp.1, vp.1) :: p.1, p.2)
              | none => none
            | '}' :: r4 => some ([(String.mk kp.1, vp.1)], r4)
            | _ => none
        | _ => none
    | _ => none

end

/-- Parse a complete JSON document: one value with nothing but whitespace
after it. -/
def parseJson (s : String) : Option JVal :=
  match parseJVal (2 * s.data.length + 2) s.data with
  | some p => if skipWs p.2 = [] then some p.1 else none
  | none => none

/-- ASCII lower-casing, for the case-insensitive field-name matching of
encoding/json. -/
def asciiLower (s : String) : String :=
  String.mk (s.data.map fun c => if 'A' ≤ c ∧ c ≤ 'Z' then Char.ofNat (c.toNat + 32) else c)

/-- Decode one object member into the (DetectRef, Ref) pair: detect-ref must
be a boolean, ref must be a string, a null leaves the field unchanged, and
unknown keys are ignored; none signals an unmarshalling type error. -/
def decodeField (d : Bool × String) (kv : String × JVal) : Option (Bool × String) :=
  if asciiLower kv.1 = "detect-ref" then
    match kv.2 with
    | JVal.jbool b => some (b, d.2)
    | JVal.jnull => some d
    | _ => none
  else if asciiLower kv.1 = "ref" then
    match kv.2 with
    | JVal.jstr v => some (d.1, v)
    | JVal.jnull => some d
    | _ => none
  else some d

/-- Model of json.Unmarshal(b, &d) for the GitDriver struct: a syntactically
invalid document is an error, a top-level null leaves the defaults, an object
is decoded member by member (last member wins), and any other top-level value
is a type error. -/
def unmarshalGitDriver (s : String) : Except String (Bool × String) :=
  match parseJson s with
  | none => Except.error "unexpected end of JSON input or invalid JSON"
  | some JVal.jnull => Except.ok (false, "")
  | some (JVal.jobj kvs) =>
    match kvs.foldlM decodeField (false, "") with
    | some d => Except.ok d
    | none => Except.error "json: cannot unmarshal value into Go struct field"
  | some _ => Except.error "json: cannot unmarshal value into Go value of type vcs.GitDriver"

/-- Model of newGit: a nil blob skips unmarshalling and keeps the zero-valued
configuration; otherwise the blob is unmarshalled and an unmarshalling error
is returned to the caller. -/
def newGit (b : Option String) : Except String GitDriver :=
  match b with
  | none => Except.ok ⟨false, ""⟩
  | some bytes =>
    match unmarshalGitDriver bytes with
    | Except.error e => Except.error e
    | Except.ok d => Except.ok ⟨d.1, d.2⟩

lemma mk_data (s : String) : String.mk s.data = s := rfl

lemma data_ne_nil {s : String} (h : s ≠ "") : s.data ≠ [] :=
  fun he => h (String.ext he)

lemma contains_eq_false {a : Char} {l : List Char} (h : a ∉ l) : l.contains a = false := by
  induction l with
  | nil => rfl
  | cons b bs ih =>
    have hab : ¬ a = b := fun he => h (he ▸ List.mem_cons_self b bs)
    have hbs : a ∉ bs := fun hm => h (List.mem_cons_of_mem b hm)
    simp [List.contains_cons]
    exact ⟨hab, hbs⟩

lemma stripPre_append (p t : List Char) : stripPre p (p ++ t) = some t := by
  induction p with
  | nil => rfl
  | cons c cs ih => simp [stripPre, ih]

lemma stripPre_eq_some {p t : List Char} : ∀ {l : List Char}, stripPre p l = some t → l = p ++ t := by
  induction p with
  | nil => intro l h; rw [stripPre] at h; exact (Option.some.inj h) ▸ rfl
  | cons c cs ih =>
    intro l h
    cases l with
    | nil => exact Option.noConfusion h
    | cons b bs =>
      rw [stripPre] at h
      by_cases hb : (b == c) = true
      · rw [if_pos hb] at h
        rw [eq_of_beq hb, ih h]
        rfl
      · rw [if_neg hb] at h
        exact Option.noConfusion h

lemma takeWhile_append_cons (l r : List Char) (h : '\n' ∉ l) :
    (l ++ '\n' :: r).takeWhile (fun ch => ch != '\n') = l := by
  induction l with
  | nil => simp [List.takeWhile_cons]
  | cons c cs ih =>
    have hc : c ≠ '\n' := fun he => h (he ▸ List.mem_cons_self c cs)
    have hcs : '\n' ∉ cs := fun hm => h (List.mem_cons_of_mem c hm)
    simp [List.takeWhile_cons, hc, ih hcs]

lemma findHeadBranchAt_prepend {t cap : List Char}
    (h : t.takeWhile (fun ch => ch != '\n') = cap) (hne : cap ≠ []) :
    findHeadBranchAt (hbLit ++ t) = some cap := by
  unfold findHeadBranchAt
  rw [stripPre_append, Option.some_bind, h, if_neg hne]

lemma findHeadBranch_here : ∀ {l cap : List Char}, findHeadBranchAt l = some cap →
    findHeadBranch l = some cap := by
  intro l cap h
  cases l with
  | nil => exact Option.noConfusion h
  | cons c cs =>
    rw [findHeadBranch, h]

lemma findHeadBranchAt_some_ne {l cap : List Char} (h : findHeadBranchAt l = some cap) :
    cap ≠ [] := by
  unfold findHeadBranchAt at h
  cases hs : stripPre hbLit l with
  | none => rw [hs, Option.none_bind] at h; exact Option.noConfusion h
  | some t =>
    rw [hs, Option.some_bind] at h
    by_cases htw : t.takeWhile (fun ch => ch != '\n') = []
    · rw [if_pos htw] at h; exact Option.noConfusion h
    · rw [if_neg htw] at h
      exact (Option.some.inj h) ▸ htw

lemma findHeadBranch_some_ne : ∀ {l cap : List Char}, findHeadBranch l = some cap → cap ≠ [] := by
  intro l
  induction l with
  | nil => intro cap h; exact Option.noConfusion h
  | cons c cs ih =>
    intro cap h
    rw [findHeadBranch] at h
    cases hat : findHeadBranchAt (c :: cs) with
    | some m =>
      rw [hat] at h
      exact (Option.some.inj h) ▸ findHeadBranchAt_some_ne hat
    | none =>
      rw [hat] at h
      exact ih h

lemma findHeadBranchAt_implies_lit {l cap : List Char} (h : findHeadBranchAt l = some cap) :
    hbLit <:+: l := by
  revert h
  unfold findHeadBranchAt
  cases hs : stripPre hbLit l with
  | none => intro h; exact Option.noConfusion h
  | some t =>
    intro _
    exact (stripPre_eq_some hs) ▸ (List.prefix_append hbLit t).isInfix

lemma findHeadBranch_none : ∀ {l : List Char}, ¬ hbLit <:+: l → findHeadBranch l = none := by
  intro l
  induction l with
  | nil => intro _; rfl
  | cons c cs ih =>
    intro h
    rw [findHeadBranch]
    cases hat : findHeadBranchAt (c :: cs) with
    | some cap => exact absurd (findHeadBranchAt_implies_lit hat) h
    | none => exact ih fun hin => h (List.infix_cons hin)

lemma findHeadBranchAt_eq_none {l : List Char} (h : ¬ hbLit <+: l) :
    findHeadBranchAt l = none := by
  unfold findHeadBranchAt
  cases hs : stripPre hbLit l with
  | none => rfl
  | some t =>
    have hp := List.prefix_append hbLit t
    rw [← stripPre_eq_some hs] at hp
    exact absurd hp h

lemma hbLit_no_overlap {pre2 z : List Char} (hne : pre2 ≠ [])
    (hlt : pre2.length < 13) (hp : hbLit <+: pre2 ++ (hbLit ++ z)) : False := by
  have h13 : hbLit.length = 13 := rfl
  have ht := List.prefix_iff_eq_take.mp hp
  rw [h13, List.take_append_eq_append_take, List.take_of_length_le (by omega),
    List.take_append_of_le_length (by omega)] at ht
  have hpre2 : pre2 = hbLit.take pre2.length := by
    have hc := congrArg (List.take pre2.length) ht
    rw [List.take_append_eq_append_take, List.take_length, Nat.sub_self, List.take_zero,
      List.append_nil] at hc
    exact hc.symm
  have hlen2 : (hbLit.take pre2.length).length = pre2.length := by
    rw [List.length_take, h13]
    omega
  rw [hpre2] at ht
  rw [hlen2] at ht
  have hs1 : 1 ≤ pre2.length := List.length_pos.mpr hne
  have key : ∀ s : Nat, s < 13 → 1 ≤ s → hbLit ≠ hbLit.take s ++ hbLit.take (13 - s) := by
    decide
  exact key pre2.length hlt hs1 ht

lemma no_earlier_match {pre : List Char} (h : ¬ hbLit <:+: pre) :
    ∀ pre2, pre2 <:+ pre → pre2 ≠ [] → ∀ z, ¬ hbLit <+: pre2 ++ (hbLit ++ z) := by
  intro pre2 hsuf hne z hp
  by_cases hlt : pre2.length < 13
  · exact hbLit_no_overlap hne hlt hp
  · have h13 : hbLit.length = 13 := rfl
    have ht := List.prefix_iff_eq_take.mp hp
    rw [h13, List.take_append_of_le_length (by omega)] at ht
    have hpfx : hbLit <+: pre2 := by
      rw [ht]
      exact List.take_prefix 13 pre2
    exact h (hpfx.isInfix.trans hsuf.isInfix)

lemma findHeadBranch_prepend_skip {pre : List Char} (h : ¬ hbLit <:+: pre) (z : List Char) :
    findHeadBranch (pre ++ (hbLit ++ z)) = findHeadBranch (hbLit ++ z) := by
  induction pre with
  | nil => rfl
  | cons c cs ih =>
    have hcs : ¬ hbLit <:+: cs := fun hin => h (List.infix_cons hin)
    have hat : findHeadBranchAt ((c :: cs) ++ (hbLit ++ z)) = none :=
      findHeadBranchAt_eq_none
        (no_earlier_match h (c :: cs) (List.suffix_refl _) (List.cons_ne_nil c cs) z)
    rw [List.cons_append] at hat
    rw [List.cons_append, findHeadBranch, hat]
    exact ih hcs

lemma greedyCapAux_eq_some {s : List Char} {k0 : Nat} (hk : 1 ≤ k0)
    (hv : genValidAt s k0 = true) (hmax : ∀ j, k0 < j → genValidAt s j = false) :
    ∀ n, k0 ≤ n → greedyCapAux s n = some k0 := by
  intro n
  induction n with
  | zero => intro hle; omega
  | succ m ih =>
    intro hle
    rw [greedyCapAux]
    by_cases hc : genValidAt s (m + 1) = true
    · rw [if_pos hc]
      have hkm : k0 = m + 1 := by
        by_contra hne
        have h1 : k0 < m + 1 := by omega
        rw [hmax (m + 1) h1] at hc
        exact Bool.noConfusion hc
      rw [hkm]
    · rw [if_neg hc]
      have hne : k0 ≠ m + 1 := fun he => hc (he ▸ hv)
      exact ih (by omega)

lemma genValidAt_marker {p : List Char} (h : '\n' ∉ p) :
    genValidAt (p ++ genMarker) p.length = true := by
  unfold genValidAt
  rw [List.drop_left, List.take_left, contains_eq_false h]
  simp [List.isPrefixOf_iff_prefix]

lemma isPrefixOf_eq_false_of_lt {p l : List Char} (h : l.length < p.length) :
    p.isPrefixOf l = false := by
  cases hpb : p.isPrefixOf l with
  | false => rfl
  | true =>
    have := (List.isPrefixOf_iff_prefix.mp hpb).length_le
    omega

lemma genValidAt_gt {p : List Char} {j : Nat} (hj : p.length < j) :
    genValidAt (p ++ genMarker) j = false := by
  unfold genValidAt
  have h24 : genMarker.length = 24 := rfl
  have hlen : ((p ++ genMarker).drop j).length < genMarker.length := by
    rw [List.length_drop, List.length_append, h24]
    omega
  rw [isPrefixOf_eq_false_of_lt hlen]
  rfl

lemma findGenAt_marker {p : List Char} (hne : p ≠ []) (h : '\n' ∉ p) :
    findGenAt (p ++ genMarker) = some p := by
  unfold findGenAt
  have h24 : genMarker.length = 24 := rfl
  have hlen : (p ++ genMarker).length = p.length + 24 := by
    rw [List.length_append, h24]
  have hg := greedyCapAux_eq_some (List.length_pos.mpr hne) (genValidAt_marker h)
    (fun j hj => genValidAt_gt hj) ((p ++ genMarker).length) (by rw [hlen]; omega)
  rw [hg, Option.map_some', List.take_left]

lemma findGenMatch_here : ∀ {l cap : List Char}, findGenAt l = some cap →
    findGenMatch l = some cap := by
  intro l cap h
  cases l with
  | nil => exact Option.noConfusion h
  | cons c cs => rw [findGenMatch, h]

lemma findGenMatch_marker {p : List Char} (hne : p ≠ []) (h : '\n' ∉ p) :
    findGenMatch (p ++ genMarker) = some p :=
  findGenMatch_here (findGenAt_marker hne h)

lemma greedyCapAux_some_valid {s : List Char} {k : Nat} :
    ∀ {n : Nat}, greedyCapAux s n = some k → genValidAt s k = true := by
  intro n
  induction n with
  | zero => intro h; exact Option.noConfusion h
  | succ m ih =>
    intro h
    rw [greedyCapAux] at h
    by_cases hc : genValidAt s (m + 1) = true
    · rw [if_pos hc] at h
      exact (Option.some.inj h) ▸ hc
    · rw [if_neg hc] at h
      exact ih h

lemma genValidAt_implies_marker {s : List Char} {k : Nat} (h : genValidAt s k = true) :
    genMarker <:+: s := by
  unfold genValidAt at h
  rw [Bool.and_eq_true] at h
  obtain ⟨r, hr⟩ := List.isPrefixOf_iff_prefix.mp h.1
  exact ⟨s.take k, r, by rw [List.append_assoc, hr, List.take_append_drop]⟩

lemma findGenAt_implies_marker {l cap : List Char} (h : findGenAt l = some cap) :
    genMarker <:+: l := by
  revert h
  unfold findGenAt
  cases hg : greedyCapAux l l.length with
  | none => intro h; exact Option.noConfusion h
  | some k => intro _; exact genValidAt_implies_marker (greedyCapAux_some_valid hg)

lemma findGenMatch_none : ∀ {l : List Char}, ¬ genMarker <:+: l → findGenMatch l = none := by
  intro l
  induction l with
  | nil => intro _; rfl
  | cons c cs ih =>
    intro h
    rw [findGenMatch]
    cases hat : findGenAt (c :: cs) with
    | some cap => exact absurd (findGenAt_implies_marker hat) h
    | none => exact ih fun hin => h (List.infix_cons hin)

/-- C1: ref resolution follows the three-tier precedence for every config and
working directory: a non-empty configured Ref wins outright; an empty Ref with
DetectRef set resolves to the detector's result when that result is non-empty;
in every remaining case (Ref empty and DetectRef false, or the detector yields
empty) the resolved ref is the fixed default "master". -/
theorem ref_resolution_precedence (g : GitDriver) (dir : String) (env : CmdResult) :
    (g.Ref ≠ "" → (targetRef g dir env).1 = g.Ref)
    ∧ (g.Ref = "" → g.DetectRef = true → (detectRef dir env).1 ≠ "" →
        (targetRef g dir env).1 = (detectRef dir env).1)
    ∧ (g.Ref = "" → g.DetectRef = false → (targetRef g dir env).1 = "master")
    ∧ (g.Ref = "" → g.DetectRef = true → (detectRef dir env).1 = "" →
        (targetRef g dir env).1 = "master") := by
  refine ⟨?_, ?_, ?_, ?_⟩
  · intro h
    simp [targetRef, h]
  · intro h1 h2 h3
    simp [targetRef, h1, h2, h3]
  · intro h1 h2
    simp [targetRef, h1, h2, defaultRef]
  · intro h1 h2 h3
    simp [targetRef, h1, h2, h3, defaultRef]

/-- Witness for C1: the three tiers at concrete inputs. -/
theorem ref_resolution_precedence_witness :
    (targetRef ⟨true, "main"⟩ "/r" ⟨"HEAD branch: develop", none⟩).1 = "main"
    ∧ (targetRef ⟨true, ""⟩ "/r" ⟨"HEAD branch: develop", none⟩).1 = "develop"
    ∧ (targetRef ⟨false, ""⟩ "/r" ⟨"HEAD branch: develop", none⟩).1 = "master"
    ∧ (targetRef ⟨true, ""⟩ "/r" ⟨"nothing here", none⟩).1 = "master" := by
  refine ⟨(ref_resolution_precedence ⟨true, "main"⟩ "/r" ⟨"HEAD branch: develop", none⟩).1 (by decide), ?_, ?_, ?_⟩
  · have h := (ref_resolution_precedence ⟨true, ""⟩ "/r" ⟨"HEAD branch: develop", none⟩).2.1 rfl rfl (by decide)
    rw [h]
    rfl
  · exact (ref_resolution_precedence ⟨false, ""⟩ "/r" ⟨"HEAD branch: develop", none⟩).2.2.1 rfl rfl
  · exact (ref_resolution_precedence ⟨true, ""⟩ "/r" ⟨"nothing here", none⟩).2.2.2 rfl rfl rfl

/-- C2: every invocation of the command runner returns the captured combined
output together with a nil error, also when the external process failed; it
never propagates a process-level failure to its caller. -/
theorem run_swallows_process_failure (desc dir cmd : String) (args : List String) (res : CmdResult) :
    (run desc dir cmd args res).1.1 = res.out ∧ (run desc dir cmd args res).1.2 = none :=
  ⟨rfl, rfl⟩

/-- C3: Pull returns an error exactly when HeadRev does, its value is exactly
the value produced by HeadRev, and the fetch and reset outcomes (failing or
not) have no influence on that value. -/
theorem pull_error_iff_headrev_error (g : GitDriver) (dir : String) (env : PullEnv) :
    (Pull g dir env).1 = (HeadRev dir env.headRev).1
    ∧ ((Pull g dir env).1.2 = none ↔ (HeadRev dir env.headRev).1.2 = none)
    ∧ ∀ fr rr : CmdResult,
        (Pull g dir ⟨env.remoteShow, fr, rr, env.headRev⟩).1 = (HeadRev dir env.headRev).1 :=
  ⟨rfl, Iff.rfl, fun _ _ => rfl⟩

/-- C7: HeadRev returns the captured output trimmed of surrounding whitespace,
and the first failure among the pipe, start, copy and wait steps is returned
to the caller as the error, with no fallback substituted for it. -/
theorem headrev_trims_and_propagates (dir : String) (env : HeadRevEnv) :
    (HeadRev dir env).1.2 = (env.pipeErr <|> env.startErr <|> env.copyErr <|> env.waitErr)
    ∧ (env.pipeErr = none → env.startErr = none → env.copyErr = none →
        (HeadRev dir env).1.1 = trimSpace env.out) := by
  obtain ⟨p, st, c, o, w⟩ := env
  constructor
  · cases p <;> cases st <;> cases c <;> cases w <;> rfl
  · intro hp hs hc
    subst hp
    subst hs
    subst hc
    rfl

/-- Witness for C7: a clean run trims the captured revision. -/
theorem headrev_trims_and_propagates_witness :
    (HeadRev "/r" ⟨none, none, none, " abc123\n", none⟩).1.1 = "abc123" := by
  have h := (headrev_trims_and_propagates "/r" ⟨none, none, none, " abc123\n", none⟩).2 rfl rfl rfl
  rw [h]
  rfl

/-- C4: when the clone invocation fails, Clone returns exactly that error and
the only subprocess it has invoked is the clone itself (no fetch, no reset,
no HeadRev); when the clone invocation succeeds, Clone returns exactly the
result of Pull, after the clone event. -/
theorem clone_hard_failure_isolated (g : GitDriver) (dir url : String) (env : CloneEnv) :
    (∀ e, env.cloneRes.err = some e →
      (Clone g dir url env).1 = ("", some e)
      ∧ ∀ d c args, Ev.exec d c args ∈ (Clone g dir url env).2 →
          c = "git" ∧ args = ["clone", "--depth", "1", url, (filepathSplit dir).2])
    ∧ (env.cloneRes.err = none →
        (Clone g dir url env).1 = (Pull g dir env.pull).1
        ∧ (Clone g dir url env).2 =
            Ev.exec (filepathSplit dir).1 "git" ["clone", "--depth", "1", url, (filepathSplit dir).2]
              :: (Pull g dir env.pull).2) := by
  constructor
  · intro e he
    constructor
    · simp [Clone, he]
    · intro d c args hmem
      simp only [Clone, he, List.mem_cons, List.not_mem_nil, or_false] at hmem
      rcases hmem with h1 | h2
      · obtain ⟨hd, hc, hargs⟩ := Ev.exec.inj h1
        exact ⟨hc.symm ▸ rfl, hargs.symm ▸ rfl⟩
      · exact Ev.noConfusion h2
  · intro he
    constructor
    · simp [Clone, he]
    · simp [Clone, he]

/-- Witness for C4: a failing clone returns its error, and a succeeding clone
hands back the Pull result. -/
theorem clone_hard_failure_isolated_witness :
    (Clone ⟨false, ""⟩ "/a/b" "u" ⟨⟨"boom", some "exit 128"⟩,
        ⟨⟨"", none⟩, ⟨"", none⟩, ⟨"", none⟩, ⟨none, none, none, "r1\n", none⟩⟩⟩).1 = ("", some "exit 128")
    ∧ (Clone ⟨false, ""⟩ "/a/b" "u" ⟨⟨"ok", none⟩,
        ⟨⟨"", none⟩, ⟨"", none⟩, ⟨"", none⟩, ⟨none, none, none, "r1\n", none⟩⟩⟩).1 =
      (Pull ⟨false, ""⟩ "/a/b" ⟨⟨"", none⟩, ⟨"", none⟩, ⟨"", none⟩, ⟨none, none, none, "r1\n", none⟩⟩).1 :=
  ⟨((clone_hard_failure_isolated ⟨false, ""⟩ "/a/b" "u" ⟨⟨"boom", some "exit 128"⟩,
      ⟨⟨"", none⟩, ⟨"", none⟩, ⟨"", none⟩, ⟨none, none, none, "r1\n", none⟩⟩⟩).1 "exit 128" rfl).1,
   ((clone_hard_failure_isolated ⟨false, ""⟩ "/a/b" "u" ⟨⟨"ok", none⟩,
      ⟨⟨"", none⟩, ⟨"", none⟩, ⟨"", none⟩, ⟨none, none, none, "r1\n", none⟩⟩⟩).2 rfl).1⟩

/-- C10: the resolved target ref is never the empty string, the fetch refspec
and reset argument that Pull invokes are built from that non-empty ref, and
the detector's regex cannot capture an empty name. -/
theorem target_ref_nonempty (g : GitDriver) (dir : String) (env : PullEnv) :
    (targetRef g dir env.remoteShow).1 ≠ ""
    ∧ Ev.exec dir "git" ["fetch", "--prune", "--no-tags", "--depth", "1", "origin",
        "+" ++ (targetRef g dir env.remoteShow).1 ++ ":remotes/origin/" ++ (targetRef g dir env.remoteShow).1]
        ∈ (Pull g dir env).2
    ∧ Ev.exec dir "git" ["reset", "--hard", "origin/" ++ (targetRef g dir env.remoteShow).1]
        ∈ (Pull g dir env).2
    ∧ ∀ (out cap : List Char), findHeadBranch out = some cap → cap ≠ [] := by
  refine ⟨?_, ?_, ?_, fun out cap h => findHeadBranch_some_ne h⟩
  · by_cases hr : g.Ref = ""
    · cases hdt : g.DetectRef with
      | true =>
        by_cases hdet : (detectRef dir env.remoteShow).1 = ""
        · have ht : (targetRef g dir env.remoteShow).1 = "master" := by
            simp [targetRef, hr, hdt, hdet, defaultRef]
          rw [ht]
          decide
        · have ht : (targetRef g dir env.remoteShow).1 = (detectRef dir env.remoteShow).1 := by
            simp [targetRef, hr, hdt, hdet]
          rw [ht]
          exact hdet
      | false =>
        have ht : (targetRef g dir env.remoteShow).1 = "master" := by
          simp [targetRef, hr, hdt, defaultRef]
        rw [ht]
        decide
    · have ht : (targetRef g dir env.remoteShow).1 = g.Ref := by
        simp [targetRef, hr]
      rw [ht]
      exact hr
  · simp [Pull, run]
  · simp [Pull, run]

/-- Witness for C10: the detector's capture on a concrete remote-show output
is non-empty, and a concrete resolved ref is non-empty. -/
theorem target_ref_nonempty_witness :
    (targetRef ⟨true, ""⟩ "/r" ⟨"junk", none⟩).1 ≠ ""
    ∧ ("develop".data ≠ []) :=
  ⟨(target_ref_nonempty ⟨true, ""⟩ "/r" ⟨⟨"junk", none⟩, ⟨"", none⟩, ⟨"", none⟩,
      ⟨none, none, none, "", none⟩⟩).1,
   (target_ref_nonempty ⟨true, ""⟩ "/r" ⟨⟨"junk", none⟩, ⟨"", none⟩, ⟨"", none⟩,
      ⟨none, none, none, "", none⟩⟩).2.2.2 "HEAD branch: develop".data "develop".data rfl⟩

/-- C6 counterexample: on remote-info output whose matching line carries a
trailing space, the detector yields the capture untrimmed, so it differs from
the trimmed name the claim predicts. -/
theorem head_branch_trimming_counterexample :
    (detectRef "/repo" ⟨"HEAD branch: develop ", none⟩).1 = "develop "
    ∧ trimSpace "develop " = "develop"
    ∧ ("develop " : String) ≠ "develop" :=
  ⟨rfl, rfl, by decide⟩

/-- C6 amended: given remote-info output containing a line matching
HEAD branch: name anywhere (at the first occurrence of the literal), the
detector yields the captured name exactly as captured, with no trimming
applied (the greedy capture runs to the end of the line); input
"HEAD branch: develop" yields "develop"; output with no such line yields the
empty result. -/
theorem head_branch_detector_behaviour (dir pre name rest : String)
    (h1 : name ≠ "") (h2 : '\n' ∉ name.data) (h3 : ¬ hbLit <:+: pre.data) :
    (detectRef dir ⟨pre ++ "HEAD branch: " ++ name ++ "\n" ++ rest, none⟩).1 = name
    ∧ (detectRef dir ⟨"HEAD branch: develop", none⟩).1 = "develop"
    ∧ ∀ (out : String) (e : Option String), ¬ hbLit <:+: out.data →
        (detectRef dir ⟨out, e⟩).1 = "" := by
  refine ⟨?_, rfl, ?_⟩
  · have hlit : ("HEAD branch: " : String).data = hbLit := rfl
    have hdata : (pre ++ "HEAD branch: " ++ name ++ "\n" ++ rest).data
        = pre.data ++ (hbLit ++ (name.data ++ '\n' :: rest.data)) := by
      simp [String.data_append, hlit, List.append_assoc]
      rfl
    have hcap : (name.data ++ '\n' :: rest.data).takeWhile (fun ch => ch != '\n') = name.data :=
      takeWhile_append_cons _ _ h2
    have hfb0 := findHeadBranch_here (findHeadBranchAt_prepend hcap (data_ne_nil h1))
    have hfb : findHeadBranch ((pre ++ "HEAD branch: " ++ name ++ "\n" ++ rest).data)
        = some name.data := by
      rw [hdata, findHeadBranch_prepend_skip h3]
      exact hfb0
    simp only [detectRef, run, hfb]

  · intro out e hni
    have hfb := findHeadBranch_none hni
    simp only [detectRef, run, hfb]

/-- Witness for C6: on realistic remote-show output whose HEAD-branch line
sits indented mid-output, a name carrying a trailing space comes back exactly
as captured. -/
theorem head_branch_detector_behaviour_witness :
    (detectRef "/r" ⟨"* remote origin\n  Fetch URL: git@example.com:org/repo.git\n  "
        ++ "HEAD branch: " ++ "develop " ++ "\n" ++ "  Remote branches:", none⟩).1 = "develop " :=
  (head_branch_detector_behaviour "/r" "* remote origin\n  Fetch URL: git@example.com:org/repo.git\n  "
    "develop " "  Remote branches:" (by decide) (by decide) (by decide)).1

/-- C5: a line of the form path followed by the linguist-generated marker
contributes path with every "**" first replaced by "*" and every remaining
"*" then replaced by ".*"; the vendor example converts without doubled
wildcard tokens; a line without the marker contributes nothing. -/
theorem auto_generated_pattern_conversion (dir path : String)
    (h1 : path ≠ "") (h2 : '\n' ∉ path.data) :
    AutoGeneratedFilePatterns dir (some [path ++ " linguist-generated=true"]) = [convertPattern path]
    ∧ convertPattern "vendor/**/*.go" = "vendor/.*/.*.go"
    ∧ AutoGeneratedFilePatterns dir (some ["vendor/**/*.go linguist-generated=true"]) = ["vendor/.*/.*.go"]
    ∧ ∀ line : String, ¬ genMarker <:+: line.data → AutoGeneratedFilePatterns dir (some [line]) = [] := by
  refine ⟨?_, rfl, rfl, ?_⟩
  · have hmk : (" linguist-generated=true" : String).data = genMarker := rfl
    have hdata : (path ++ " linguist-generated=true").data = path.data ++ genMarker := by
      rw [String.data_append, hmk]
    have hfm := findGenMatch_marker (data_ne_nil h1) h2
    simp only [AutoGeneratedFilePatterns, List.filterMap_cons, List.filterMap_nil, hdata, hfm, mk_data]
  · intro line hni
    simp [AutoGeneratedFilePatterns, findGenMatch_none hni]

/-- Witness for C5: a concrete attributes line converts to its pattern. -/
theorem auto_generated_pattern_conversion_witness :
    AutoGeneratedFilePatterns "/r" (some ["src/*.pb.go linguist-generated=true"])
      = [convertPattern "src/*.pb.go"] :=
  (auto_generated_pattern_conversion "/r" "src/*.pb.go" (by decide) (by decide)).1

/-- C9: a missing attributes file yields the empty sequence and never an
error; patterns come back in file order (the function distributes over
concatenation of line blocks), one per matching line, with no deduplication
of repeated lines. -/
theorem auto_generated_patterns_order (dir : String) :
    AutoGeneratedFilePatterns dir none = []
    ∧ (∀ l1 l2 : List String, AutoGeneratedFilePatterns dir (some (l1 ++ l2))
        = AutoGeneratedFilePatterns dir (some l1) ++ AutoGeneratedFilePatterns dir (some l2))
    ∧ (∀ lines : List String, (AutoGeneratedFilePatterns dir (some lines)).length
        = (lines.filter fun l => (findGenMatch l.data).isSome).length)
    ∧ AutoGeneratedFilePatterns dir (some ["a linguist-generated=true", "a linguist-generated=true"])
        = ["a", "a"] := by
  refine ⟨rfl, ?_, ?_, rfl⟩
  · intro l1 l2
    simp [AutoGeneratedFilePatterns, List.filterMap_append]
  · intro lines
    induction lines with
    | nil => rfl
    | cons a as ih =>
      simp only [AutoGeneratedFilePatterns] at ih ⊢
      cases hfa : findGenMatch a.data with
      | none => simp [List.filterMap_cons, List.filter_cons, hfa, ih]
      | some m => simp [List.filterMap_cons, List.filter_cons, hfa, ih]

/-- C8 counterexample: a present-but-empty configuration blob does not yield
the defaults; unmarshalling it fails and newGit returns that error. -/
theorem newgit_empty_blob_counterexample :
    newGit (some "") = Except.error "unexpected end of JSON input or invalid JSON" := rfl

/-- C8 amended: construction from an absent (nil) blob succeeds with the
defaults DetectRef = false and Ref = ""; construction from a present blob
that fails to unmarshal, the empty blob included, returns the error to the
caller; a well-formed blob decodes its fields. -/
theorem newgit_construction :
    newGit none = Except.ok ⟨false, ""⟩
    ∧ (∀ s e, unmarshalGitDriver s = Except.error e → newGit (some s) = Except.error e)
    ∧ newGit (some "") = Except.error "unexpected end of JSON input or invalid JSON"
    ∧ newGit (some "\x7b\"detect-ref\": true, \"ref\": \"main\"\x7d") = Except.ok ⟨true, "main"⟩ := by
  refine ⟨rfl, ?_, rfl, rfl⟩
  intro s e h
  simp [newGit, h]

/-- Witness for C8: a malformed blob's unmarshalling error is propagated. -/
theorem newgit_construction_witness :
    newGit (some "\x7b") = Except.error "unexpected end of JSON input or invalid JSON" :=
  newgit_construction.2.1 "\x7b" "unexpected end of JSON input or invalid JSON" rfl

end Hound
